import Mathlib

/-!
Verification of the spec of ManTIME src/mantime/readers.py
(class TempEval3FileReader: parse and __get_annotations).

Python byte strings are modelled as lists of characters, Python ints as
Int, `None`-able values as Option, and code that may raise as Except
String (the string is the exception rendered as text).  The XML trees
produced by xml.etree.cElementTree are modelled by the mutual inductive
Elem / Forest below; iterparse over a serialized element is modelled by
the explicit event stream eventsOf.
-/

/-- Python byte strings: lists of characters. -/
abbrev Str := List Char

/-- The whitespace characters stripped by Python 2 str.lstrip(). -/
def pyIsSpace (c : Char) : Bool :=
  c = ' ' || c = '\t' || c = '\n' || c = '\r' || c = '\x0b' || c = '\x0c'

/-- Python slicing l[s:e] for non-negative bounds (clamped at the length). -/
def listSlice (l : Str) (s e : Nat) : Str :=
  (l.drop s).take (e - s)

mutual
/-- An XML element as exposed by xml.etree.cElementTree: tag, attrib,
direct text before the first child (None when absent), the children in
document order, and tail text after the closing tag (None when absent). -/
inductive Elem : Type where
  | mk : String → List (String × String) → Option Str → Forest → Option Str → Elem
/-- A sequence of sibling elements in document order. -/
inductive Forest : Type where
  | nil : Forest
  | cons : Elem → Forest → Forest
end

def Elem.tag : Elem → String
  | .mk t _ _ _ _ => t

def Elem.attrib : Elem → List (String × String)
  | .mk _ a _ _ _ => a

def Elem.text : Elem → Option Str
  | .mk _ _ x _ _ => x

def Elem.children : Elem → Forest
  | .mk _ _ _ ch _ => ch

def Elem.tail : Elem → Option Str
  | .mk _ _ _ _ tl => tl

mutual
/-- Element.itertext(): the element's direct text followed by, for each
child in order, the child's flattened text and then the child's tail. -/
def innerFlat : Elem → Str
  | .mk _ _ x ch _ => x.getD [] ++ forestFlat ch
def forestFlat : Forest → Str
  | .nil => []
  | .cons c cs => innerFlat c ++ (Elem.tail c).getD [] ++ forestFlat cs
end

/-- etree.tostring(node, method='text'): the flattened text of the node
followed by the node's own tail. -/
def tostring_text (e : Elem) : Str :=
  innerFlat e ++ (Elem.tail e).getD []

/-- What iterparse exposes on an element at its start and end events. -/
structure ElemData where
  tag : String
  attrib : List (String × String)
  text : Option Str
  tail : Option Str
deriving DecidableEq

/-- An iterparse event: start (opening tag seen) or stop (closing tag seen). -/
inductive Event : Type where
  | start : ElemData → Event
  | stop : ElemData → Event
deriving DecidableEq

mutual
/-- The (event, element) stream of etree.iterparse(source, events=('start','end'))
in document order: start of an element, the streams of its children, then
its end. -/
def eventsOf : Elem → List Event
  | .mk t a x ch tl => Event.start ⟨t, a, x, tl⟩ :: (eventsOfF ch ++ [Event.stop ⟨t, a, x, tl⟩])
def eventsOfF : Forest → List Event
  | .nil => []
  | .cons c cs => eventsOf c ++ eventsOfF cs
end

/-- One entry of the returned list:
('TAG', \x7bATTRIBUTES\x7d, (start_offset, end_offset)). -/
structure Ann where
  tag : String
  attrib : List (String × String)
  span : Int × Int
deriving DecidableEq

/-- The text of the TypeError raised by len(None). -/
def typeErrMsg : String := "TypeError: object of type NoneType has no len()"

/-- Python len(element.text): raises a TypeError when the text is None. -/
def pyLen : Option Str → Except String Nat
  | none => Except.error typeErrMsg
  | some s => Except.ok s.length

/-- The local state of the __get_annotations loop. -/
structure ExtState where
  annotations : List Ann
  start_offset : Int
deriving DecidableEq

/-- The body of the iterparse loop of __get_annotations, one event at a
time.  On 'start': if the tag is in tags_to_spot, compute
end_offset = start_offset + len(element.text) and append the tuple; then
advance start_offset by len(element.text) unconditionally.  On 'end':
advance start_offset by len(element.tail) only when both element.text and
element.tail are not None. -/
def step (tags_to_spot : List String) (st : ExtState) : Event → Except String ExtState
  | .start el =>
    if tags_to_spot.contains el.tag then
      match pyLen el.text with
      | .error e => .error e
      | .ok n =>
        let anns := st.annotations ++ [⟨el.tag, el.attrib, (st.start_offset, st.start_offset + n)⟩]
        match pyLen el.text with
        | .error e => .error e
        | .ok m => .ok ⟨anns, st.start_offset + m⟩
    else
      match pyLen el.text with
      | .error e => .error e
      | .ok m => .ok ⟨st.annotations, st.start_offset + m⟩
  | .stop el =>
    match el.text, el.tail with
    | some _, some tl => .ok ⟨st.annotations, st.start_offset + tl.length⟩
    | _, _ => .ok st

/-- The iterparse loop: fold step over the event stream, stopping at the
first raised exception. -/
def runEvents (tags_to_spot : List String) : List Event → ExtState → Except String ExtState
  | [], st => .ok st
  | ev :: rest, st =>
    match step tags_to_spot st ev with
    | .error e => .error e
    | .ok st2 => runEvents tags_to_spot rest st2

/-- Serializing a node with etree.tostring and re-parsing the string with
iterparse: the node's tail text lies after the root's closing tag, so the
re-parse accepts it only when it is whitespace (expat rejects other
trailing content) and it is not retained in the re-parsed tree. -/
def reparse (e : Elem) : Except String Elem :=
  match e with
  | .mk t a x ch tl =>
    match tl with
    | none => .ok (.mk t a x ch none)
    | some s =>
      if s.all pyIsSpace then .ok (.mk t a x ch none)
      else .error "ParseError: junk after document element"

/-- TempEval3FileReader.__get_annotations applied to etree.tostring(node)
and a starting offset: re-parse the serialized markup and run the event
loop starting from ([], start_offset), returning the annotation list. -/
def get_annotations (tags_to_spot : List String) (node : Elem) (start_offset : Int) :
    Except String (List Ann) :=
  match reparse node with
  | .error e => .error e
  | .ok root =>
    match runEvents tags_to_spot (eventsOf root) ⟨[], start_offset⟩ with
    | .error e => .error e
    | .ok st => .ok st.annotations

/-- self.tags_to_spot of TempEval3FileReader. -/
def tags_to_spot : List String := ["TIMEX3", "EVENT", "SIGNAL"]

mutual
/-- All elements of a forest, each followed by its own subtree, in
document (pre-)order. -/
def preorderF : Forest → List Elem
  | .nil => []
  | .cons c cs => preorderElems c ++ preorderF cs
/-- An element followed by all its descendants in document (pre-)order. -/
def preorderElems : Elem → List Elem
  | .mk t a x ch tl => .mk t a x ch tl :: preorderF ch
end

/-- The proper descendants of an element in document order: what
findall with an xpath of the form .//TAG traverses. -/
def descendants (e : Elem) : List Elem :=
  preorderF (Elem.children e)

/-- The predicate of the xpath .//TIMEX3[@functionInDocument='CREATION_TIME']. -/
def isCreationTime (e : Elem) : Bool :=
  e.tag == "TIMEX3" && (e.attrib.lookup "functionInDocument" == some "CREATION_TIME")

/-- xml_document.findall(".//TIMEX3[@functionInDocument='CREATION_TIME']"). -/
def creationTimes (doc : Elem) : List Elem :=
  (descendants doc).filter isCreationTime

/-- xml_document.findall(".//TEXT")[0]: the first TEXT descendant, or the
IndexError the [0] raises on an empty result list. -/
def findText (doc : Elem) : Except String Elem :=
  match (descendants doc).filter (fun e => e.tag == "TEXT") with
  | [] => .error "IndexError: list index out of range"
  | tn :: _ => .ok tn

/-- l_strip_chars = len(text.lstrip()) - len(text). -/
def l_strip_chars (text : Str) : Int :=
  ((text.dropWhile pyIsSpace).length : Int) - (text.length : Int)

/-- The fields of the Document object populated by parse itself.  They
start out unpopulated (none) and are assigned one by one; the external
stanford_tree and push_classes steps are outside this module's scope. -/
structure Document where
  file_path : String
  dct : Option String
  text : Option Str
  annotations : Option (List Ann)
deriving DecidableEq

/-- TempEval3FileReader.parse, with the external collaborators
(StanfordCoreNLP, push_classes) omitted: locate the first TEXT
descendant ([0] raises IndexError when there is none), serialize it as
plain text and as markup, compute l_strip_chars, take the value attribute
of the first creation-time TIMEX3 ([0] raises IndexError when there is
none, attrib['value'] raises KeyError when absent), and extract the
annotations from the markup with l_strip_chars as starting offset. -/
def parse (file_path : String) (xml_document : Elem) : Except String Document :=
  match findText xml_document with
  | .error e => .error e
  | .ok text_node =>
    let text := tostring_text text_node
    match creationTimes xml_document with
    | [] => .error "IndexError: list index out of range"
    | t :: _ =>
      match t.attrib.lookup "value" with
      | none => .error "KeyError: value"
      | some v =>
        match get_annotations tags_to_spot text_node (l_strip_chars text) with
        | .error e => .error e
        | .ok anns => .ok ⟨file_path, some v, some text, some anns⟩

mutual
/-- Whether every element of the tree has a present (non-None) direct
text field: exactly the trees on which the event loop never evaluates
len(None). -/
def allTextSome : Elem → Bool
  | .mk _ _ x ch _ => x.isSome && allTextSomeF ch
def allTextSomeF : Forest → Bool
  | .nil => true
  | .cons c cs => allTextSome c && allTextSomeF cs
end

mutual
/-- Reference description of the extractor output on a crash-free run:
for each element in document order whose tag is spotted, the produced
tuple paired with that element's own direct text.  The running offset
advances by the length of the direct text on entry and by the length of
each child's flattened text plus tail after the child. -/
def spanTextsE (tags : List String) (off : Int) : Elem → List (Ann × Str)
  | .mk t a x ch _ =>
    (if tags.contains t then
      [(⟨t, a, (off, off + ((x.getD []).length : Int))⟩, x.getD [])]
     else []) ++ spanTextsF tags (off + ((x.getD []).length : Int)) ch
def spanTextsF (tags : List String) (off : Int) : Forest → List (Ann × Str)
  | .nil => []
  | .cons c cs =>
    spanTextsE tags off c ++
      spanTextsF tags (off + ((innerFlat c).length : Int) + (((Elem.tail c).getD []).length : Int)) cs
end

/-- Shift both ends of an annotation's span by d. -/
def shiftAnn (d : Int) (a : Ann) : Ann :=
  ⟨a.tag, a.attrib, (a.span.1 + d, a.span.2 + d)⟩

/-- The tail-text example of the spec: the markup <p>A<b>X</b>B</p>. -/
def exPB : Elem :=
  .mk "p" [] (some ['A']) (.cons (.mk "b" [] (some ['X']) .nil (some ['B'])) .nil) none

/-- A creation-time TIMEX3 tag carrying a value attribute. -/
def exDct : Elem :=
  .mk "TIMEX3" [("functionInDocument", "CREATION_TIME"), ("value", "2013-03-22")] none .nil none

/-- A TEXT node whose plain text is "He saw it today." with one annotated
TIMEX3 over "today". -/
def exTextNode : Elem :=
  .mk "TEXT" [] (some ("He saw it ".toList))
    (.cons (.mk "TIMEX3" [("tid", "t1")] (some ("today".toList)) .nil (some (".".toList))) .nil)
    none

/-- A complete well-formed input document. -/
def exDoc : Elem :=
  .mk "TimeML" [] none (.cons exDct (.cons exTextNode .nil)) none

/-- The Document parse returns on exDoc. -/
def exDocument : Document :=
  ⟨"ex.tml", some "2013-03-22", some ("He saw it today.".toList),
    some [⟨"TIMEX3", [("tid", "t1")], (10, 15)⟩]⟩

/-- The same input without any creation-time tag. -/
def exDocNoDct : Elem :=
  .mk "TimeML" [] none (.cons exTextNode .nil) none

/-- A TEXT node whose plain text " AB" starts with one whitespace
character, the annotated TIMEX3 covering "AB". -/
def exTextNodeWs : Elem :=
  .mk "TEXT" [] (some (" ".toList))
    (.cons (.mk "TIMEX3" [] (some ("AB".toList)) .nil none) .nil) none

/-- A complete input document whose plain text has leading whitespace. -/
def exDocWs : Elem :=
  .mk "TimeML" [] none (.cons exDct (.cons exTextNodeWs .nil)) none

/-- The Document parse returns on exDocWs. -/
def exDocumentWs : Document :=
  ⟨"ws.tml", some "2013-03-22", some (" AB".toList), some [⟨"TIMEX3", [], (0, 2)⟩]⟩

/-- A markup input containing a tag of interest with empty content:
<TEXT>A <SIGNAL/></TEXT>. -/
def exEmptyTag : Elem :=
  .mk "TEXT" [] (some ("A ".toList)) (.cons (.mk "SIGNAL" [] none .nil none) .nil) none

/-- A well-formed markup input built only from tags of interest, ordinary
text and nesting, with a self-closing element:
<TIMEX3>hi <SIGNAL/> there</TIMEX3>. -/
def exSelfClosing : Elem :=
  .mk "TIMEX3" [] (some ("hi ".toList))
    (.cons (.mk "SIGNAL" [] none .nil (some (" there".toList))) .nil) none


theorem runEvents_append (tags : List String) (l1 l2 : List Event) (st : ExtState) :
    runEvents tags (l1 ++ l2) st =
      match runEvents tags l1 st with
      | .error e => .error e
      | .ok st2 => runEvents tags l2 st2 := by
  induction l1 generalizing st with
  | nil => simp [runEvents]
  | cons ev rest ih =>
    simp only [List.cons_append, runEvents]
    cases step tags st ev with
    | error e => rfl
    | ok st2 => exact ih st2

theorem listSlice_append_left (a b : Str) (s e : Nat) (h : e ≤ a.length) :
    listSlice (a ++ b) s e = listSlice a s e := by
  unfold listSlice
  rw [List.drop_append_eq_append_drop, List.take_append_eq_append_take]
  have h2 : e - s - (a.drop s).length = 0 := by
    simp only [List.length_drop]
    omega
  rw [h2]
  simp

theorem listSlice_append_shift (a b : Str) (s e : Nat) :
    listSlice (a ++ b) (a.length + s) (a.length + e) = listSlice b s e := by
  unfold listSlice
  rw [List.drop_append_eq_append_drop, List.drop_eq_nil_of_le (Nat.le_add_right _ _),
    Nat.add_sub_cancel_left, Nat.add_sub_add_left, List.nil_append]

/-- The plain-text length an element contributes to its parent's stream:
its flattened text plus its tail. -/
def outerLen (e : Elem) : Nat :=
  (innerFlat e).length + ((Elem.tail e).getD []).length

@[simp] theorem Elem.tag_mk (t : String) (a : List (String × String)) (x : Option Str)
    (ch : Forest) (tl : Option Str) : (Elem.mk t a x ch tl).tag = t := rfl

@[simp] theorem Elem.attrib_mk (t : String) (a : List (String × String)) (x : Option Str)
    (ch : Forest) (tl : Option Str) : (Elem.mk t a x ch tl).attrib = a := rfl

@[simp] theorem Elem.text_mk (t : String) (a : List (String × String)) (x : Option Str)
    (ch : Forest) (tl : Option Str) : (Elem.mk t a x ch tl).text = x := rfl

@[simp] theorem Elem.children_mk (t : String) (a : List (String × String)) (x : Option Str)
    (ch : Forest) (tl : Option Str) : (Elem.mk t a x ch tl).children = ch := rfl

@[simp] theorem Elem.tail_mk (t : String) (a : List (String × String)) (x : Option Str)
    (ch : Forest) (tl : Option Str) : (Elem.mk t a x ch tl).tail = tl := rfl

@[simp] theorem innerFlat_mk (t : String) (a : List (String × String)) (x : Option Str)
    (ch : Forest) (tl : Option Str) :
    innerFlat (.mk t a x ch tl) = x.getD [] ++ forestFlat ch := by
  rw [innerFlat]

@[simp] theorem forestFlat_nil : forestFlat .nil = [] := by rw [forestFlat]

@[simp] theorem forestFlat_cons (c : Elem) (cs : Forest) :
    forestFlat (.cons c cs) = innerFlat c ++ (Elem.tail c).getD [] ++ forestFlat cs := by
  rw [forestFlat]

@[simp] theorem allTextSome_mk (t : String) (a : List (String × String)) (x : Option Str)
    (ch : Forest) (tl : Option Str) :
    allTextSome (.mk t a x ch tl) = (x.isSome && allTextSomeF ch) := by
  rw [allTextSome]

@[simp] theorem allTextSomeF_nil : allTextSomeF .nil = true := by rw [allTextSomeF]

@[simp] theorem allTextSomeF_cons (c : Elem) (cs : Forest) :
    allTextSomeF (.cons c cs) = (allTextSome c && allTextSomeF cs) := by
  rw [allTextSomeF]

theorem spanTextsE_mk (tags : List String) (off : Int) (t : String)
    (a : List (String × String)) (x : Option Str) (ch : Forest) (tl : Option Str) :
    spanTextsE tags off (.mk t a x ch tl) =
      (if tags.contains t then
        [(⟨t, a, (off, off + ((x.getD []).length : Int))⟩, x.getD [])]
       else []) ++ spanTextsF tags (off + ((x.getD []).length : Int)) ch := by
  rw [spanTextsE]

@[simp] theorem spanTextsF_nil (tags : List String) (off : Int) :
    spanTextsF tags off .nil = [] := by rw [spanTextsF]

@[simp] theorem spanTextsF_cons (tags : List String) (off : Int) (c : Elem) (cs : Forest) :
    spanTextsF tags off (.cons c cs) =
      spanTextsE tags off c ++
        spanTextsF tags (off + ((innerFlat c).length : Int) + (((Elem.tail c).getD []).length : Int)) cs := by
  rw [spanTextsF]

mutual
theorem run_eventsOf (tags : List String) (e : Elem) (st : ExtState) :
    runEvents tags (eventsOf e) st =
      if allTextSome e then
        .ok ⟨st.annotations ++ (spanTextsE tags st.start_offset e).map Prod.fst,
             st.start_offset + (outerLen e : Int)⟩
      else .error typeErrMsg := by
  match e with
  | .mk t a x ch tl =>
    cases x with
    | none =>
      simp [eventsOf, runEvents, step, pyLen]
    | some s =>
      have hch := run_eventsOfF tags ch
      cases hc : tags.contains t with
      | false =>
        have hc' : t ∉ tags := by simpa using hc
        simp only [eventsOf, List.cons_append, runEvents, step, hc, pyLen, Bool.false_eq_true,
          if_false]
        rw [runEvents_append, hch]
        cases hall : allTextSomeF ch with
        | false =>
          simp [hall]
        | true =>
          simp only [if_pos rfl, allTextSome_mk, hall, Option.isSome_some, Bool.and_self, if_true,
            runEvents, step]
          cases tl with
          | none =>
            simp [spanTextsE_mk, hc', outerLen, runEvents]
            omega
          | some u =>
            simp [spanTextsE_mk, hc', outerLen, runEvents]
            omega
      | true =>
        have hc' : t ∈ tags := by simpa using hc
        simp only [eventsOf, List.cons_append, runEvents, step, hc, pyLen, if_true]
        rw [runEvents_append, hch]
        cases hall : allTextSomeF ch with
        | false =>
          simp [hall]
        | true =>
          simp only [allTextSome_mk, hall, Option.isSome_some, Bool.and_self, if_true, runEvents,
            step]
          cases tl with
          | none =>
            simp [spanTextsE_mk, hc', outerLen, runEvents, List.append_assoc]
            omega
          | some u =>
            simp [spanTextsE_mk, hc', outerLen, runEvents, List.append_assoc]
            omega

theorem run_eventsOfF (tags : List String) (f : Forest) (st : ExtState) :
    runEvents tags (eventsOfF f) st =
      if allTextSomeF f then
        .ok ⟨st.annotations ++ (spanTextsF tags st.start_offset f).map Prod.fst,
             st.start_offset + ((forestFlat f).length : Int)⟩
      else .error typeErrMsg := by
  match f with
  | .nil =>
    simp [eventsOfF, runEvents]
  | .cons c cs =>
    have hc := run_eventsOf tags c st
    have hcs := run_eventsOfF tags cs
    simp only [eventsOfF]
    rw [runEvents_append, hc]
    cases hac : allTextSome c with
    | false =>
      simp [hac]
    | true =>
      rw [if_pos rfl]
      simp only [allTextSomeF_cons, hac, Bool.true_and]
      rw [hcs]
      cases hacs : allTextSomeF cs with
      | false => simp [hacs]
      | true =>
        simp only [hacs, if_true, spanTextsF_cons, outerLen, List.map_append, List.append_assoc,
          Except.ok.injEq, ExtState.mk.injEq]
        push_cast
        constructor
        · rw [← add_assoc]
        · simp only [forestFlat_cons, List.length_append]
          push_cast
          ring
end

/-- Whether the serialized node re-parses: its tail (which lands after the
root's closing tag) is absent or whitespace. -/
def tailParsesOk (e : Elem) : Bool :=
  match Elem.tail e with
  | none => true
  | some s => s.all pyIsSpace

theorem get_annotations_ok (tags : List String) (node : Elem) (off : Int)
    (h1 : tailParsesOk node = true) (h2 : allTextSome node = true) :
    get_annotations tags node off = .ok ((spanTextsE tags off node).map Prod.fst) := by
  match node with
  | .mk t a x ch tl =>
    have hrun := run_eventsOf tags (.mk t a x ch none) ⟨[], off⟩
    have hsame : allTextSome (Elem.mk t a x ch none) = true := by
      simpa using h2
    rw [hsame, if_pos rfl] at hrun
    have hspan : spanTextsE tags off (Elem.mk t a x ch none) =
        spanTextsE tags off (Elem.mk t a x ch tl) := by
      rw [spanTextsE_mk, spanTextsE_mk]
    cases tl with
    | none =>
      simp only [get_annotations, reparse, hrun, hspan, List.nil_append]
    | some s =>
      have hws : s.all pyIsSpace = true := by simpa [tailParsesOk] using h1
      simp only [get_annotations, reparse, hws, if_true, hrun, hspan, List.nil_append]

theorem get_annotations_err (tags : List String) (node : Elem) (off : Int)
    (h2 : allTextSome node = false) (anns : List Ann) :
    get_annotations tags node off ≠ .ok anns := by
  match node with
  | .mk t a x ch tl =>
    have hrun := run_eventsOf tags (.mk t a x ch none) ⟨[], off⟩
    have hsame : allTextSome (Elem.mk t a x ch none) = false := by
      simpa using h2
    rw [hsame] at hrun
    simp only [Bool.false_eq_true, if_false] at hrun
    cases tl with
    | none =>
      simp only [get_annotations, reparse, hrun]
      intro hcontra
      exact Except.noConfusion hcontra
    | some s =>
      cases hws : s.all pyIsSpace with
      | true =>
        simp only [get_annotations, reparse, hws, if_true, hrun]
        intro hcontra
        exact Except.noConfusion hcontra
      | false =>
        simp only [get_annotations, reparse, hws, Bool.false_eq_true, if_false]
        intro hcontra
        exact Except.noConfusion hcontra

theorem get_annotations_inv (tags : List String) (node : Elem) (off : Int) (anns : List Ann)
    (h : get_annotations tags node off = .ok anns) :
    allTextSome node = true ∧ tailParsesOk node = true ∧
      anns = (spanTextsE tags off node).map Prod.fst := by
  cases hA : allTextSome node with
  | false => exact absurd h (get_annotations_err tags node off hA anns)
  | true =>
    cases hT : tailParsesOk node with
    | false =>
      exfalso
      match node with
      | .mk t a x ch (some s) =>
        have hws : s.all pyIsSpace = false := by simpa [tailParsesOk] using hT
        simp only [get_annotations, reparse, hws, Bool.false_eq_true, if_false] at h
        exact Except.noConfusion h
    | true =>
      refine ⟨rfl, rfl, ?_⟩
      have := get_annotations_ok tags node off hT hA
      rw [this] at h
      exact (Except.ok.injEq _ _ ▸ congrArg id h) ▸ rfl

/-- What each produced entry satisfies relative to the flattened text it
was produced over: its span sits at some position k at or after the base
offset, its width is the length of the paired element text, it stays
inside the flattened text, and slicing the flattened text at the span
yields exactly that element text. -/
def EntryOk (base : Int) (flat : Str) (p : Ann × Str) : Prop :=
  ∃ k : Nat, p.1.span.1 = base + (k : Int) ∧
    p.1.span.2 = base + ((k + p.2.length : Nat) : Int) ∧
    k + p.2.length ≤ flat.length ∧
    listSlice flat k (k + p.2.length) = p.2

/-- Entries are ordered by their start offsets. -/
def annLe (p q : Ann × Str) : Prop := p.1.span.1 ≤ q.1.span.1

mutual
theorem spanTextsE_ok (tags : List String) (off : Int) (e : Elem) :
    (∀ p ∈ spanTextsE tags off e, EntryOk off (innerFlat e) p) ∧
      (spanTextsE tags off e).Pairwise annLe := by
  match e with
  | .mk t a x ch tl =>
    obtain ⟨hF, hFp⟩ := spanTextsF_ok tags (off + ((x.getD []).length : Int)) ch
    rw [spanTextsE_mk]
    constructor
    · intro p hp
      rw [List.mem_append] at hp
      rcases hp with hp | hp
      · have hp' : p = (⟨t, a, (off, off + ((x.getD []).length : Int))⟩, x.getD []) := by
          cases hcon : tags.contains t with
          | false => rw [hcon] at hp; simp at hp
          | true => rw [hcon] at hp; simpa using hp
        refine ⟨0, ?_, ?_, ?_, ?_⟩
        · rw [hp']; simp
        · rw [hp']; simp
        · rw [hp']; simp [innerFlat_mk]
        · rw [hp']
          simp only [listSlice, List.drop_zero, Nat.zero_add, Nat.sub_zero, innerFlat_mk]
          exact List.take_left _ _
      · obtain ⟨k, h1, h2, h3, h4⟩ := hF p hp
        refine ⟨(x.getD []).length + k, ?_, ?_, ?_, ?_⟩
        · rw [h1]; push_cast; ring
        · rw [h2]; push_cast; ring
        · simp only [innerFlat_mk, List.length_append]; omega
        · rw [innerFlat_mk, Nat.add_assoc, listSlice_append_shift]
          exact h4
    · rw [List.pairwise_append]
      refine ⟨?_, hFp, ?_⟩
      · cases tags.contains t <;> simp [annLe]
      · intro p hp q hq
        have hp' : p.1.span.1 = off := by
          cases hcon : tags.contains t with
          | false => rw [hcon] at hp; simp at hp
          | true =>
            rw [hcon] at hp
            simp only [if_true, List.mem_singleton] at hp
            rw [hp]
        obtain ⟨k, h1, _, _, _⟩ := hF q hq
        rw [annLe, hp', h1]
        omega

theorem spanTextsF_ok (tags : List String) (off : Int) (f : Forest) :
    (∀ p ∈ spanTextsF tags off f, EntryOk off (forestFlat f) p) ∧
      (spanTextsF tags off f).Pairwise annLe := by
  match f with
  | .nil => simp
  | .cons c cs =>
    obtain ⟨hE, hEp⟩ := spanTextsE_ok tags off c
    obtain ⟨hF, hFp⟩ :=
      spanTextsF_ok tags (off + ((innerFlat c).length : Int) + (((Elem.tail c).getD []).length : Int)) cs
    rw [spanTextsF_cons]
    constructor
    · intro p hp
      rw [List.mem_append] at hp
      rcases hp with hp | hp
      · obtain ⟨k, h1, h2, h3, h4⟩ := hE p hp
        refine ⟨k, h1, h2, ?_, ?_⟩
        · rw [forestFlat_cons]
          simp only [List.length_append]
          omega
        · rw [forestFlat_cons, List.append_assoc, listSlice_append_left _ _ _ _ h3]
          exact h4
      · obtain ⟨k, h1, h2, h3, h4⟩ := hF p hp
        refine ⟨(innerFlat c).length + ((Elem.tail c).getD []).length + k, ?_, ?_, ?_, ?_⟩
        · rw [h1]; push_cast; ring
        · rw [h2]; push_cast; ring
        · rw [forestFlat_cons]
          simp only [List.length_append]
          omega
        · rw [forestFlat_cons]
          have h5 := listSlice_append_shift (innerFlat c ++ (Elem.tail c).getD [])
            (forestFlat cs) k (k + p.2.length)
          rw [List.length_append] at h5
          have hs : (innerFlat c).length + ((Elem.tail c).getD []).length + k + p.2.length =
              (innerFlat c).length + ((Elem.tail c).getD []).length + (k + p.2.length) := by
            omega
          rw [hs, h5, h4]
    · rw [List.pairwise_append]
      refine ⟨hEp, hFp, ?_⟩
      intro p hp q hq
      obtain ⟨k, h1, h2, h3, _⟩ := hE p hp
      obtain ⟨k', h1', _, _, _⟩ := hF q hq
      rw [annLe, h1, h1']
      omega
end

mutual
theorem spanTextsE_shift (tags : List String) (off d : Int) (e : Elem) :
    spanTextsE tags (off + d) e =
      (spanTextsE tags off e).map (fun p => (shiftAnn d p.1, p.2)) := by
  match e with
  | .mk t a x ch tl =>
    rw [spanTextsE_mk, spanTextsE_mk, List.map_append]
    have hrec := spanTextsF_shift tags (off + ((x.getD []).length : Int)) d ch
    have harg : off + d + ((x.getD []).length : Int) =
        off + ((x.getD []).length : Int) + d := by ring
    congr 1
    · cases hcon : tags.contains t with
      | false => simp
      | true =>
        simp only [if_true, List.map_cons, List.map_nil, shiftAnn, List.cons.injEq,
          Prod.mk.injEq, Ann.mk.injEq, Prod.mk.injEq, and_true, true_and]
        ring
    · rw [harg, hrec]

theorem spanTextsF_shift (tags : List String) (off d : Int) (f : Forest) :
    spanTextsF tags (off + d) f =
      (spanTextsF tags off f).map (fun p => (shiftAnn d p.1, p.2)) := by
  match f with
  | .nil => simp
  | .cons c cs =>
    rw [spanTextsF_cons, spanTextsF_cons, List.map_append]
    have hrec1 := spanTextsE_shift tags off d c
    have hrec2 := spanTextsF_shift tags
      (off + ((innerFlat c).length : Int) + (((Elem.tail c).getD []).length : Int)) d cs
    have harg : off + d + ((innerFlat c).length : Int) + (((Elem.tail c).getD []).length : Int) =
        off + ((innerFlat c).length : Int) + (((Elem.tail c).getD []).length : Int) + d := by
      ring
    rw [hrec1, harg, hrec2]
end

mutual
theorem spanTextsE_tag_mem (tags : List String) (off : Int) (e : Elem) :
    ∀ p ∈ spanTextsE tags off e, p.1.tag ∈ tags := by
  match e with
  | .mk t a x ch tl =>
    intro p hp
    rw [spanTextsE_mk, List.mem_append] at hp
    rcases hp with hp | hp
    · cases hcon : tags.contains t with
      | false => rw [hcon] at hp; simp at hp
      | true =>
        rw [hcon] at hp
        simp only [if_true, List.mem_singleton] at hp
        rw [hp]
        simpa using hcon
    · exact spanTextsF_tag_mem tags (off + ((x.getD []).length : Int)) ch p hp

theorem spanTextsF_tag_mem (tags : List String) (off : Int) (f : Forest) :
    ∀ p ∈ spanTextsF tags off f, p.1.tag ∈ tags := by
  match f with
  | .nil => simp
  | .cons c cs =>
    intro p hp
    rw [spanTextsF_cons, List.mem_append] at hp
    rcases hp with hp | hp
    · exact spanTextsE_tag_mem tags off c p hp
    · exact spanTextsF_tag_mem tags
        (off + ((innerFlat c).length : Int) + (((Elem.tail c).getD []).length : Int)) cs p hp
end

@[simp] theorem preorderElems_mk (t : String) (a : List (String × String)) (x : Option Str)
    (ch : Forest) (tl : Option Str) :
    preorderElems (.mk t a x ch tl) = .mk t a x ch tl :: preorderF ch := by
  rw [preorderElems]

@[simp] theorem preorderF_nil : preorderF .nil = [] := by rw [preorderF]

@[simp] theorem preorderF_cons (c : Elem) (cs : Forest) :
    preorderF (.cons c cs) = preorderElems c ++ preorderF cs := by
  rw [preorderF]

mutual
theorem spanTextsE_doc_order (tags : List String) (off : Int) (e : Elem) :
    (spanTextsE tags off e).map (fun p => (p.1.tag, p.1.attrib)) =
      ((preorderElems e).filter (fun el => tags.contains el.tag)).map
        (fun el => (el.tag, el.attrib)) := by
  match e with
  | .mk t a x ch tl =>
    rw [spanTextsE_mk, preorderElems_mk, List.map_append, List.filter_cons]
    have hrec := spanTextsF_doc_order tags (off + ((x.getD []).length : Int)) ch
    cases hcon : tags.contains t with
    | false =>
      simp only [Elem.tag_mk, hcon, Bool.false_eq_true, if_false, List.map_nil, List.nil_append]
      exact hrec
    | true =>
      simp only [Elem.tag_mk, hcon, if_true, List.map_cons, List.map_nil, List.singleton_append,
        Elem.attrib_mk]
      rw [hrec]

theorem spanTextsF_doc_order (tags : List String) (off : Int) (f : Forest) :
    (spanTextsF tags off f).map (fun p => (p.1.tag, p.1.attrib)) =
      ((preorderF f).filter (fun el => tags.contains el.tag)).map
        (fun el => (el.tag, el.attrib)) := by
  match f with
  | .nil => simp
  | .cons c cs =>
    rw [spanTextsF_cons, preorderF_cons, List.map_append, List.filter_append, List.map_append]
    rw [spanTextsE_doc_order tags off c,
      spanTextsF_doc_order tags
        (off + ((innerFlat c).length : Int) + (((Elem.tail c).getD []).length : Int)) cs]
end

/-- Claim C7: parse on a document with exactly one reference-time tag (a
TIMEX3 with functionInDocument='CREATION_TIME') returns a Document whose
dct equals that tag's value attribute; on a document with zero such tags,
parse raises the missing-reference error (the IndexError of the [0]
indexing) and no default or fallback dct value is synthesized. -/
theorem c7_dct_from_reference_time (fp : String) (doc : Elem) :
    (∀ t d, creationTimes doc = [t] → parse fp doc = .ok d →
      ∃ v, t.attrib.lookup "value" = some v ∧ d.dct = some v) ∧
    (creationTimes doc = [] →
      parse fp doc = .error "IndexError: list index out of range") := by
  constructor
  · intro t d hct hp
    unfold parse at hp
    cases hft : findText doc with
    | error e =>
      rw [hft] at hp
      exact absurd hp (by simp)
    | ok tn =>
      simp only [hft, hct] at hp
      cases hv : t.attrib.lookup "value" with
      | none =>
        simp only [hv] at hp
        exact Except.noConfusion hp
      | some v =>
        simp only [hv] at hp
        cases hga : get_annotations tags_to_spot tn (l_strip_chars (tostring_text tn)) with
        | error e =>
          simp only [hga] at hp
          exact Except.noConfusion hp
        | ok anns =>
          simp only [hga, Except.ok.injEq] at hp
          subst hp
          exact ⟨v, rfl, rfl⟩
  · intro hct
    unfold parse
    cases hft : findText doc with
    | error e =>
      have he : e = "IndexError: list index out of range" := by
        unfold findText at hft
        cases hl : (descendants doc).filter (fun e => e.tag == "TEXT") with
        | nil =>
          rw [hl] at hft
          cases hft
          rfl
        | cons a as =>
          rw [hl] at hft
          cases hft
      simp only [hft, he]
    | ok tn =>
      simp only [hft, hct]

/-- Witness for C7 at concrete inputs: exDoc has exactly one
creation-time tag and a successful parse whose dct is its value
attribute; exDocNoDct has none and parse raises the IndexError. -/
theorem c7_dct_from_reference_time_witness :
    (∃ v, exDct.attrib.lookup "value" = some v ∧ exDocument.dct = some v) ∧
    parse "n.tml" exDocNoDct = .error "IndexError: list index out of range" :=
  ⟨(c7_dct_from_reference_time "ex.tml" exDoc).1 exDct exDocument (by rfl) (by rfl),
   (c7_dct_from_reference_time "n.tml" exDocNoDct).2 (by rfl)⟩

/-- Claim C8: parse is atomic: whenever it returns a Document (rather
than raising), all three fields dct, text and annotations have been
populated; a failure raises instead of returning a partial Document. -/
theorem c8_parse_atomic (fp : String) (doc : Elem) (d : Document)
    (h : parse fp doc = .ok d) :
    d.dct.isSome = true ∧ d.text.isSome = true ∧ d.annotations.isSome = true := by
  unfold parse at h
  cases hft : findText doc with
  | error e =>
    rw [hft] at h
    exact absurd h (by simp)
  | ok tn =>
    simp only [hft] at h
    cases hct : creationTimes doc with
    | nil =>
      simp only [hct] at h
      exact Except.noConfusion h
    | cons t rest =>
      simp only [hct] at h
      cases hv : t.attrib.lookup "value" with
      | none =>
        simp only [hv] at h
        exact Except.noConfusion h
      | some v =>
        simp only [hv] at h
        cases hga : get_annotations tags_to_spot tn (l_strip_chars (tostring_text tn)) with
        | error e =>
          simp only [hga] at h
          exact Except.noConfusion h
        | ok anns =>
          simp only [hga, Except.ok.injEq] at h
          subst h
          exact ⟨rfl, rfl, rfl⟩

/-- Witness for C8 at a concrete successful parse. -/
theorem c8_parse_atomic_witness :
    exDocument.dct.isSome = true ∧ exDocument.text.isSome = true ∧
      exDocument.annotations.isSome = true :=
  c8_parse_atomic "ex.tml" exDoc exDocument (by rfl)

/-- Claim C9: every annotation in the list stored by a successful parse of
a TempEval3FileReader has a tag from the fixed set of tags_to_spot:
TIMEX3, EVENT or SIGNAL; no other tag name is ever emitted. -/
theorem c9_tags_restricted (fp : String) (doc : Elem) (d : Document) (anns : List Ann)
    (h : parse fp doc = .ok d) (h2 : d.annotations = some anns) :
    ∀ a ∈ anns, a.tag = "TIMEX3" ∨ a.tag = "EVENT" ∨ a.tag = "SIGNAL" := by
  unfold parse at h
  cases hft : findText doc with
  | error e =>
    rw [hft] at h
    exact absurd h (by simp)
  | ok tn =>
    simp only [hft] at h
    cases hct : creationTimes doc with
    | nil =>
      simp only [hct] at h
      exact Except.noConfusion h
    | cons t rest =>
      simp only [hct] at h
      cases hv : t.attrib.lookup "value" with
      | none =>
        simp only [hv] at h
        exact Except.noConfusion h
      | some v =>
        simp only [hv] at h
        cases hga : get_annotations tags_to_spot tn (l_strip_chars (tostring_text tn)) with
        | error e =>
          simp only [hga] at h
          exact Except.noConfusion h
        | ok anns0 =>
          simp only [hga, Except.ok.injEq] at h
          subst h
          simp only [Document.annotations, Option.some.injEq] at h2
          subst h2
          obtain ⟨-, -, hch⟩ := get_annotations_inv tags_to_spot tn
            (l_strip_chars (tostring_text tn)) anns0 hga
          subst hch
          intro a ha
          rw [List.mem_map] at ha
          obtain ⟨p, hp, hpa⟩ := ha
          have := spanTextsE_tag_mem tags_to_spot (l_strip_chars (tostring_text tn)) tn p hp
          rw [hpa] at this
          simpa [tags_to_spot] using this

/-- Witness for C9 at a concrete successful parse. -/
theorem c9_tags_restricted_witness :
    (⟨"TIMEX3", [("tid", "t1")], (10, 15)⟩ : Ann).tag = "TIMEX3" ∨
    (⟨"TIMEX3", [("tid", "t1")], (10, 15)⟩ : Ann).tag = "EVENT" ∨
    (⟨"TIMEX3", [("tid", "t1")], (10, 15)⟩ : Ann).tag = "SIGNAL" :=
  c9_tags_restricted "ex.tml" exDoc exDocument [⟨"TIMEX3", [("tid", "t1")], (10, 15)⟩]
    (by rfl) (by rfl) ⟨"TIMEX3", [("tid", "t1")], (10, 15)⟩ (by decide)

/-- Claim C10: on every input on which the extractor returns, every
returned span has start less than or equal to end, the width of each span
is the length of the matched element's direct text (recorded by the
reference list spanTextsE), and the start offsets are non-decreasing
across the returned list. -/
theorem c10_spans_monotone (tags : List String) (node : Elem) (off : Int) (anns : List Ann)
    (h : get_annotations tags node off = .ok anns) :
    (∀ a ∈ anns, a.span.1 ≤ a.span.2) ∧
    anns.Pairwise (fun a b => a.span.1 ≤ b.span.1) ∧
    anns = (spanTextsE tags off node).map Prod.fst ∧
    ∀ p ∈ spanTextsE tags off node, p.1.span.2 - p.1.span.1 = (p.2.length : Int) := by
  obtain ⟨-, -, hanns⟩ := get_annotations_inv tags node off anns h
  obtain ⟨hOk, hPair⟩ := spanTextsE_ok tags off node
  refine ⟨?_, ?_, hanns, ?_⟩
  · intro a ha
    rw [hanns, List.mem_map] at ha
    obtain ⟨p, hp, hpa⟩ := ha
    obtain ⟨k, h1, h2, -, -⟩ := hOk p hp
    rw [← hpa, h1, h2]
    push_cast
    omega
  · rw [hanns]
    exact hPair.map Prod.fst (fun p q hpq => hpq)
  · intro p hp
    obtain ⟨k, h1, h2, -, -⟩ := hOk p hp
    rw [h1, h2]
    push_cast
    ring

/-- Witness for C10 at a concrete extractor run. -/
theorem c10_spans_monotone_witness :
    (∀ a ∈ [(⟨"p", [], (0, 1)⟩ : Ann), ⟨"b", [], (1, 2)⟩], a.span.1 ≤ a.span.2) ∧
    ([(⟨"p", [], (0, 1)⟩ : Ann), ⟨"b", [], (1, 2)⟩]).Pairwise
      (fun a b => a.span.1 ≤ b.span.1) ∧
    [(⟨"p", [], (0, 1)⟩ : Ann), ⟨"b", [], (1, 2)⟩] =
      (spanTextsE ["p", "b"] 0 exPB).map Prod.fst ∧
    ∀ p ∈ spanTextsE ["p", "b"] 0 exPB,
      p.1.span.2 - p.1.span.1 = (p.2.length : Int) :=
  c10_spans_monotone ["p", "b"] exPB 0 [⟨"p", [], (0, 1)⟩, ⟨"b", [], (1, 2)⟩] (by rfl)

/-- Claim C1 is refuted at a concrete input: on exDocWs, whose plain text
" AB" begins with k = 1 whitespace character, parse computes the
correction l_strip_chars as -1 = len(lstripped) - len(text), which is
negative, not the claimed non-negative len(text) - len(lstripped) = 1;
and the returned annotation for the element with text "AB" carries the
span (0, 2), which slices " A" out of the unstripped plain text, so the
offsets are shifted by k toward the stripped view. -/
theorem c1_counterexample :
    l_strip_chars (" AB".toList) = -1 ∧
    ¬ (0 : Int) ≤ l_strip_chars (" AB".toList) ∧
    parse "ws.tml" exDocWs = .ok exDocumentWs ∧
    exDocumentWs.annotations = some [⟨"TIMEX3", [], (0, 2)⟩] ∧
    listSlice (" AB".toList) 0 2 ≠ "AB".toList :=
  ⟨by decide, by decide, by rfl, by rfl, by decide⟩

/-- Claim C1 (amended): parse computes the leading-whitespace correction
as len(lstripped plain text) - len(plain text), the negation -k of the
leading-whitespace length k, passes it to the Annotation Extractor as the
starting offset, and consequently every returned annotation is the
corresponding offset-0 annotation (the one valid against the unstripped
plain text) with both span ends shifted by -k, i.e. shifted by k toward
the stripped view. -/
theorem c1_correction_shifts_offsets (fp : String) (doc : Elem) (d : Document)
    (text_node : Elem) (h1 : findText doc = .ok text_node)
    (h2 : parse fp doc = .ok d) :
    l_strip_chars (tostring_text text_node) =
      -((((tostring_text text_node).takeWhile pyIsSpace).length : Nat) : Int) ∧
    ∃ anns0, get_annotations tags_to_spot text_node 0 = .ok anns0 ∧
      d.annotations =
        some (anns0.map (shiftAnn (l_strip_chars (tostring_text text_node)))) := by
  constructor
  · have hlen := congrArg List.length
      (List.takeWhile_append_dropWhile pyIsSpace (tostring_text text_node))
    simp only [List.length_append] at hlen
    unfold l_strip_chars
    omega
  · unfold parse at h2
    cases hft : findText doc with
    | error e =>
      rw [hft] at h1
      exact Except.noConfusion h1
    | ok tn =>
      rw [hft] at h1
      have htn : tn = text_node := by
        cases h1
        rfl
      subst htn
      simp only [hft] at h2
      cases hct : creationTimes doc with
      | nil =>
        simp only [hct] at h2
        exact Except.noConfusion h2
      | cons t rest =>
        simp only [hct] at h2
        cases hv : t.attrib.lookup "value" with
        | none =>
          simp only [hv] at h2
          exact Except.noConfusion h2
        | some v =>
          simp only [hv] at h2
          cases hga : get_annotations tags_to_spot tn (l_strip_chars (tostring_text tn)) with
          | error e =>
            simp only [hga] at h2
            exact Except.noConfusion h2
          | ok anns =>
            simp only [hga, Except.ok.injEq] at h2
            subst h2
            obtain ⟨hAll, hTail, hanns⟩ := get_annotations_inv tags_to_spot tn
              (l_strip_chars (tostring_text tn)) anns hga
            refine ⟨(spanTextsE tags_to_spot 0 tn).map Prod.fst,
              get_annotations_ok tags_to_spot tn 0 hTail hAll, ?_⟩
            simp only [Document.annotations, Option.some.injEq]
            have hshift := spanTextsE_shift tags_to_spot 0 (l_strip_chars (tostring_text tn)) tn
            rw [zero_add] at hshift
            rw [hanns, hshift, List.map_map, List.map_map]
            rfl

/-- Witness for the amended C1 at the concrete document exDocWs. -/
theorem c1_correction_shifts_offsets_witness :
    l_strip_chars (tostring_text exTextNodeWs) =
      -((((tostring_text exTextNodeWs).takeWhile pyIsSpace).length : Nat) : Int) ∧
    ∃ anns0, get_annotations tags_to_spot exTextNodeWs 0 = .ok anns0 ∧
      exDocumentWs.annotations =
        some (anns0.map (shiftAnn (l_strip_chars (tostring_text exTextNodeWs)))) :=
  c1_correction_shifts_offsets "ws.tml" exDocWs exDocumentWs exTextNodeWs (by rfl) (by rfl)

/-- Claim C2 is refuted at a concrete input: on the well-formed markup
of exEmptyTag, which contains the tag of interest SIGNAL with absent
(empty) direct text content, the extractor raises the TypeError of
len(None) instead of returning a zero-width span. -/
theorem c2_counterexample :
    get_annotations tags_to_spot exEmptyTag 0 = .error typeErrMsg := by rfl

/-- Claim C2 (amended): an element with empty content is exposed by the
markup parser with absent (None) text, and len(None) raises; hence on
every input in which any element — in particular a tag of interest with
empty content — has absent direct text, the extractor raises a TypeError
and returns no annotation list at all, rather than a zero-width span. -/
theorem c2_empty_tag_raises (tags : List String) (node : Elem) (off : Int)
    (h : allTextSome node = false) :
    ∀ anns, get_annotations tags node off ≠ .ok anns :=
  fun anns => get_annotations_err tags node off h anns

/-- Witness for the amended C2 at the concrete input exEmptyTag. -/
theorem c2_empty_tag_raises_witness :
    get_annotations tags_to_spot exEmptyTag 0 ≠
      .ok [⟨"SIGNAL", [], (2, 2)⟩] :=
  c2_empty_tag_raises tags_to_spot exEmptyTag 0 (by rfl) [⟨"SIGNAL", [], (2, 2)⟩]

/-- Claim C3 is refuted at a concrete input: the well-formed markup of
exSelfClosing contains only tags of interest, ordinary text and nesting,
including one self-closing (empty) element, yet the extractor raises the
TypeError of len(None) instead of returning a list. -/
theorem c3_counterexample :
    get_annotations tags_to_spot exSelfClosing 0 = .error typeErrMsg := by rfl

/-- Claim C3 (amended): the extractor never raises and returns a list on
every well-formed markup input in which every element carries present
(non-empty) direct text; self-closing or empty elements instead raise the
TypeError of len(None). -/
theorem c3_no_raise_when_text_present (tags : List String) (node : Elem) (off : Int)
    (h1 : tailParsesOk node = true) (h2 : allTextSome node = true) :
    ∃ anns, get_annotations tags node off = .ok anns :=
  ⟨(spanTextsE tags off node).map Prod.fst, get_annotations_ok tags node off h1 h2⟩

/-- Witness for the amended C3 at the concrete input exTextNode. -/
theorem c3_no_raise_when_text_present_witness :
    ∃ anns, get_annotations tags_to_spot exTextNode 0 = .ok anns :=
  c3_no_raise_when_text_present tags_to_spot exTextNode 0 (by rfl) (by rfl)

/-- Claim C4 is refuted at a concrete input: on the markup
<p>A<b>X</b>B</p> with both p and b tags of interest and starting offset
0, the extractor returns the span (0, 1) for p — covering only p's direct
text "A" — and not the claimed (0, 3) over p's full flattened content. -/
theorem c4_counterexample :
    get_annotations ["p", "b"] exPB 0 = .ok [⟨"p", [], (0, 1)⟩, ⟨"b", [], (1, 2)⟩] ∧
    ((0 : Int), (1 : Int)) ≠ ((0 : Int), (3 : Int)) :=
  ⟨by rfl, by decide⟩

/-- Claim C4 (amended): for the markup <p>A<b>X</b>B</p> with starting
offset 0: if only b is of interest the extractor returns exactly the one
span (1, 2) for b; if p is also of interest the span returned for p is
(0, 1), covering only p's direct text "A" — the nested child's text and
the tail text advance the cursor but are not part of p's span. -/
theorem c4_tail_text_example :
    get_annotations ["b"] exPB 0 = .ok [⟨"b", [], (1, 2)⟩] ∧
    get_annotations ["p", "b"] exPB 0 = .ok [⟨"p", [], (0, 1)⟩, ⟨"b", [], (1, 2)⟩] :=
  ⟨by rfl, by rfl⟩

/-- Claim C5: with starting offset 0, every span the extractor returns
cuts exactly the matched element's own direct text out of the plain text
(the tag-stripped form of the markup).  This holds for every successful
run, with or without nesting; the reference list spanTextsE pairs each
returned tuple with the matched element's own text. -/
theorem c5_spans_slice_own_text (tags : List String) (node : Elem) (anns : List Ann)
    (h : get_annotations tags node 0 = .ok anns) :
    anns = (spanTextsE tags 0 node).map Prod.fst ∧
    ∀ p ∈ spanTextsE tags 0 node, ∃ s e : Nat,
      p.1.span = ((s : Int), (e : Int)) ∧
      listSlice (tostring_text node) s e = p.2 := by
  obtain ⟨-, -, hanns⟩ := get_annotations_inv tags node 0 anns h
  obtain ⟨hOk, -⟩ := spanTextsE_ok tags 0 node
  refine ⟨hanns, ?_⟩
  intro p hp
  obtain ⟨k, h1, h2, h3, h4⟩ := hOk p hp
  refine ⟨k, k + p.2.length, ?_, ?_⟩
  · rw [Prod.ext_iff]
    constructor
    · rw [h1]; ring
    · rw [h2]; ring
  · unfold tostring_text
    rw [listSlice_append_left _ _ _ _ h3]
    exact h4

/-- Witness for C5 at a concrete extractor run. -/
theorem c5_spans_slice_own_text_witness :
    ([⟨"b", [], (1, 2)⟩] : List Ann) = (spanTextsE ["b"] 0 exPB).map Prod.fst ∧
    ∀ p ∈ spanTextsE ["b"] 0 exPB, ∃ s e : Nat,
      p.1.span = ((s : Int), (e : Int)) ∧
      listSlice (tostring_text exPB) s e = p.2 :=
  c5_spans_slice_own_text ["b"] exPB [⟨"b", [], (1, 2)⟩] (by rfl)

/-- Claim C6: the list the extractor returns carries the spotted elements
in exactly the order their opening tags appear in the source — the
pre-order (document-order) traversal filtered to the tags of interest —
regardless of nesting depth, never reordered by tag type or offset. -/
theorem c6_document_order (tags : List String) (node : Elem) (off : Int) (anns : List Ann)
    (h : get_annotations tags node off = .ok anns) :
    anns = (spanTextsE tags off node).map Prod.fst ∧
    anns.map (fun a => (a.tag, a.attrib)) =
      ((preorderElems node).filter (fun el => tags.contains el.tag)).map
        (fun el => (el.tag, el.attrib)) := by
  obtain ⟨-, -, hanns⟩ := get_annotations_inv tags node off anns h
  refine ⟨hanns, ?_⟩
  rw [hanns, List.map_map]
  exact spanTextsE_doc_order tags off node

/-- Witness for C6 at a concrete extractor run with nesting. -/
theorem c6_document_order_witness :
    ([⟨"p", [], (0, 1)⟩, ⟨"b", [], (1, 2)⟩] : List Ann) =
      (spanTextsE ["p", "b"] 0 exPB).map Prod.fst ∧
    ([⟨"p", [], (0, 1)⟩, ⟨"b", [], (1, 2)⟩] : List Ann).map (fun a => (a.tag, a.attrib)) =
      ((preorderElems exPB).filter (fun el => (["p", "b"] : List String).contains el.tag)).map
        (fun el => (el.tag, el.attrib)) :=
  c6_document_order ["p", "b"] exPB 0 [⟨"p", [], (0, 1)⟩, ⟨"b", [], (1, 2)⟩] (by rfl)
